import Mathlib

/-!
# kmud: items, templates and the session loop

A shallow embedding of `database/item.go` and `session/session.go`.

* Entities live in an entity store and refer to each other by identifier.
* Every method is embedded together with the lock, `Retrieve` and
  changed-hook actions it performs, recorded in a trace of `Ev`.
* Go's `int` is the 64 bit two's complement integer: sums are wrapped by `wrapInt`.
* Recursion through the store (`Item.GetWeight`) is bounded by fuel.
-/

namespace Kmud

/-! ## database: data model -/

/-- Identifier of an entity (`types.Id`). -/
abbrev Id := Nat

/-- The two object types this file needs (`types.ObjectType`). -/
inductive ObjectType where
  | TemplateType
  | ItemType
  deriving DecidableEq, Repr

/-- Observable actions of the entity methods, in program order. -/
inductive Ev where
  | readLock (id : Id)
  | readUnlock (id : Id)
  | writeLock (id : Id)
  | writeUnlock (id : Id)
  | retrieve (id : Id) (ty : ObjectType)
  | modified (id : Id)
  deriving DecidableEq, Repr

/-- `database.Template`: the embedded `DbObject` contributes the identifier. -/
structure Template where
  Id : Kmud.Id
  Name : String
  Value : Int
  Weight : Int
  Capacity : Int
  deriving DecidableEq, Repr

/-- `database.Item`: the embedded `Container` contributes the identifier and
the list of contained item identifiers. -/
structure Item where
  Id : Kmud.Id
  Inventory : List Kmud.Id
  TemplateId : Kmud.Id
  Locked : Bool
  deriving DecidableEq, Repr

/-- A live object handed out by the entity store. -/
inductive Object where
  | template (t : Template)
  | item (i : Item)
  deriving DecidableEq, Repr

/-- The entity store: which live object, if any, an identifier of a given type names. -/
abbrev Store := ObjectType → Id → Option Object

/-- How a call ends: with a value, with a Go panic, or with the fuel of the
embedding used up (the call is still recursing). -/
inductive Outcome (α : Type) where
  | value (a : α)
  | panicked
  | outOfFuel
  deriving DecidableEq, Repr

/-- A call: the actions it performed and how it ended. -/
structure Run (α : Type) where
  trace : List Ev
  result : Outcome α
  deriving DecidableEq, Repr

/-- A call that performs no action and returns `a`. -/
def Run.ret {α : Type} (a : α) : Run α := ⟨[], .value a⟩

/-- Sequencing: the second call runs only when the first one returned. -/
def Run.andThen {α β : Type} (m : Run α) (f : α → Run β) : Run β :=
  match m.result with
  | .value a => ⟨m.trace ++ (f a).trace, (f a).result⟩
  | .panicked => ⟨m.trace, .panicked⟩
  | .outOfFuel => ⟨m.trace, .outOfFuel⟩

/-- Number of bits of Go's `int`. -/
def intBits : Nat := 64

/-- Two's complement wrap-around of an integer into the range of Go's `int`. -/
def wrapInt (x : Int) : Int :=
  (x + 2 ^ (intBits - 1)) % 2 ^ intBits - 2 ^ (intBits - 1)

/-- Go's `+` on `int`. -/
def addInt (a b : Int) : Int := wrapInt (a + b)

/-- The values a Go `int` can hold. -/
def InIntRange (x : Int) : Prop := -(2 ^ (intBits - 1)) ≤ x ∧ x < 2 ^ (intBits - 1)

/-! ## database: the entity store -/

/-- Modelled from the spec: `database.Retrieve` is not part of the sources.
"retrieve(id, type) -> Entity ... retrieve on an unknown identifier is a
programming error / fatal condition": the live object is looked up in the
store, and an unknown identifier panics. -/
def Retrieve (s : Store) (id : Id) (ty : ObjectType) : Run Object :=
  match s ty id with
  | some o => ⟨[.retrieve id ty], .value o⟩
  | none => ⟨[.retrieve id ty], .panicked⟩

/-- The type assertion `.(types.Template)`. -/
def assertTemplate : Object → Run Template
  | .template t => Run.ret t
  | .item _ => ⟨[], .panicked⟩

/-- The type assertion `.(types.Item)`. -/
def assertItem : Object → Run Item
  | .item i => Run.ret i
  | .template _ => ⟨[], .panicked⟩

/-! ## database: Template -/

/-- `Template.GetName`. -/
def Template.GetName (self : Template) : Run String :=
  ⟨[.readLock self.Id, .readUnlock self.Id], .value self.Name⟩

/-- `Template.GetValue`. -/
def Template.GetValue (self : Template) : Run Int :=
  ⟨[.readLock self.Id, .readUnlock self.Id], .value self.Value⟩

/-- `Template.GetWeight`. -/
def Template.GetWeight (self : Template) : Run Int :=
  ⟨[.readLock self.Id, .readUnlock self.Id], .value self.Weight⟩

/-- `Template.GetCapacity`. -/
def Template.GetCapacity (self : Template) : Run Int :=
  ⟨[.readLock self.Id, .readUnlock self.Id], .value self.Capacity⟩

/-- `Template.SetName`; `FormatName` is `utils.FormatName`, which is not part
of the sources and is taken as a parameter. Returns the entity after the call
and the actions performed. -/
def Template.SetName (FormatName : String → String) (self : Template) (name : String) :
    Template × List Ev :=
  if name ≠ self.Name then
    ({ self with Name := FormatName name },
      self.GetName.trace ++ [.writeLock self.Id, .writeUnlock self.Id, .modified self.Id])
  else
    (self, self.GetName.trace)

/-- `Template.SetValue`. -/
def Template.SetValue (self : Template) (value : Int) : Template × List Ev :=
  if value ≠ self.Value then
    ({ self with Value := value },
      self.GetValue.trace ++ [.writeLock self.Id, .writeUnlock self.Id, .modified self.Id])
  else
    (self, self.GetValue.trace)

/-- `Template.SetWeight`. -/
def Template.SetWeight (self : Template) (weight : Int) : Template × List Ev :=
  if weight ≠ self.Weight then
    ({ self with Weight := weight },
      self.GetWeight.trace ++ [.writeLock self.Id, .writeUnlock self.Id, .modified self.Id])
  else
    (self, self.GetWeight.trace)

/-- `Template.SetCapacity`. -/
def Template.SetCapacity (self : Template) (capacity : Int) : Template × List Ev :=
  if capacity ≠ self.Capacity then
    ({ self with Capacity := capacity },
      self.GetCapacity.trace ++ [.writeLock self.Id, .writeUnlock self.Id, .modified self.Id])
  else
    (self, self.GetCapacity.trace)

/-- `NewTemplate`: the name is stored formatted (the identifier is given by `init`). -/
def NewTemplate (FormatName : String → String) (id : Id) (name : String) : Template :=
  { Id := id, Name := FormatName name, Value := 0, Weight := 0, Capacity := 0 }

/-! ## database: Item -/

/-- `Item.GetTemplate`: the read lock is taken, `Retrieve` runs, and the
deferred `ReadUnlock` runs when the function leaves, by return or by panic. -/
def Item.GetTemplate (s : Store) (self : Item) : Run Template :=
  let r := (Retrieve s self.TemplateId .TemplateType).andThen assertTemplate
  ⟨[.readLock self.Id] ++ r.trace ++ [.readUnlock self.Id], r.result⟩

/-- Modelled from the spec: `Container.GetItems` is not part of the sources.
"a getter takes the read lock for the duration of the read and returns a
copy": the list of contained item identifiers is read under the read lock. -/
def Item.GetItems (self : Item) : Run (List Kmud.Id) :=
  ⟨[.readLock self.Id, .readUnlock self.Id], .value self.Inventory⟩

/-- The `for _, id := range ...` loop of `Item.GetWeight`, with the recursive
call `item.GetWeight()` given as `rec`. -/
def weightLoop (s : Store) (rec : Item → Run Int) : List Id → Int → Run Int
  | [], weight => Run.ret weight
  | id :: rest, weight =>
    ((Retrieve s id .ItemType).andThen assertItem).andThen fun item =>
      (rec item).andThen fun w =>
        weightLoop s rec rest (addInt weight w)

/-- `Item.GetWeight`, with a bound on the depth of the recursion. -/
def Item.GetWeight (s : Store) : Nat → Item → Run Int
  | 0, _ => ⟨[], .outOfFuel⟩
  | fuel + 1, self =>
    ((Item.GetTemplate s self).andThen Template.GetWeight).andThen fun weight =>
      (Item.GetItems self).andThen fun ids =>
        weightLoop s (Item.GetWeight s fuel) ids weight

/-- `Item.IsLocked`. -/
def Item.IsLocked (self : Item) : Run Bool :=
  ⟨[.readLock self.Id, .readUnlock self.Id], .value self.Locked⟩

/-- `Item.SetLocked`. -/
def Item.SetLocked (self : Item) (locked : Bool) : Item × List Ev :=
  if locked ≠ self.Locked then
    ({ self with Locked := locked },
      self.IsLocked.trace ++ [.writeLock self.Id, .writeUnlock self.Id, .modified self.Id])
  else
    (self, self.IsLocked.trace)

/-! ## The scenario of the specification: a sword in a bag in a backpack -/

/-- Template "Sword" (weight 5), "Bag" (weight 2), "Backpack" (weight 3). -/
def swordTemplate : Template := { Id := 1, Name := "Sword", Value := 0, Weight := 5, Capacity := 0 }
def bagTemplate : Template := { Id := 2, Name := "Bag", Value := 0, Weight := 2, Capacity := 0 }
def backpackTemplate : Template :=
  { Id := 3, Name := "Backpack", Value := 0, Weight := 3, Capacity := 0 }

def sword : Item := { Id := 11, Inventory := [], TemplateId := 1, Locked := false }
def bag : Item := { Id := 12, Inventory := [11], TemplateId := 2, Locked := false }
def backpack : Item := { Id := 13, Inventory := [12], TemplateId := 3, Locked := false }

/-- The store holding the three templates and the three items. -/
def scenarioStore : Store
  | .TemplateType, 1 => some (.template swordTemplate)
  | .TemplateType, 2 => some (.template bagTemplate)
  | .TemplateType, 3 => some (.template backpackTemplate)
  | .ItemType, 11 => some (.item sword)
  | .ItemType, 12 => some (.item bag)
  | .ItemType, 13 => some (.item backpack)
  | _, _ => none

/-! ## session: data model -/

/-- A reference to an object of a package outside the sources (connection,
user, character, zone, channel). -/
abbrev Handle := Nat

/-- The value carried by a Go panic. -/
abbrev PanicValue := String

/-- `database.Room`, as far as the session looks into it: the identifier;
`Contents` stands for the room's other fields. -/
structure Room where
  Id : Kmud.Id
  Contents : String
  deriving DecidableEq, Repr

/-- `userInputMode`, an `int` type. -/
abbrev userInputMode := Int

def CleanUserInput : userInputMode := 0
def RawUserInput : userInputMode := 1

/-- `session.Session`. -/
structure Session where
  conn : Handle
  user : Handle
  player : Handle
  room : Room
  zone : Handle
  userInputChannel : Handle
  promptChannel : Handle
  inputModeChannel : Handle
  panicChannel : Handle
  eventChannel : Handle
  deriving DecidableEq, Repr

/-- `model.EventType`. -/
inductive EventType where
  | RoomUpdateEventType
  | otherEventType (tag : Nat)
  deriving DecidableEq, Repr

/-- Modelled from the spec: package `model` is not part of the sources. "Event:
an immutable, typed message describing one state change (e.g., room updated,
character entered/left), carrying enough data for a subscriber to render a
human-readable notice and to update its own cached references": an event is
either a `RoomUpdateEvent`, which carries the room, or an event of another
type; `text` is what `ToString` renders for a given character. -/
inductive Event where
  | RoomUpdateEvent (Room : Room) (text : Handle → String)
  | other (tag : Nat) (text : Handle → String)

/-- `Event.Type`. -/
def Event.Type : Event → EventType
  | .RoomUpdateEvent _ _ => .RoomUpdateEventType
  | .other tag _ => .otherEventType tag

/-- `Event.ToString`. -/
def Event.ToString : Event → Handle → String
  | .RoomUpdateEvent _ text, player => text player
  | .other _ text, player => text player

/-- The colours of package `utils` that the session names. -/
inductive Color where
  | ColorWhite
  | ColorRed
  | ColorBlue
  deriving DecidableEq, Repr

/-- `utils.ColorMode`. -/
abbrev ColorMode := Nat

/-- Observable actions of a session, in program order: channel sends, the
writes on the connection (`utils.ClearLine`, `utils.WriteLine`,
`io.WriteString`), the start of the input goroutine, the handler calls and
`model.Unregister`. -/
inductive Eff where
  | sendInputMode (ch : Handle) (mode : userInputMode)
  | sendPrompt (ch : Handle) (prompt : String)
  | ClearLine (conn : Handle)
  | WriteLine (conn : Handle) (line : String)
  | WriteString (conn : Handle) (data : String)
  | goInputTask
  | handleCommand (args : List String)
  | handleAction (args : List String)
  | Unregister (ch : Handle)
  deriving DecidableEq, Repr

/-- How a piece of the session's main goroutine ends: it completes with a
value, it panics, or it is still waiting in `select` when the arrivals given
to the embedding are used up. -/
inductive Flow (α : Type) where
  | done (a : α)
  | panic (v : PanicValue)
  | waiting
  deriving DecidableEq, Repr

/-- The session after a piece of code, the actions performed, and how it ended. -/
structure Step (α : Type) where
  session : Session
  effects : List Eff
  flow : Flow α
  deriving DecidableEq, Repr

/-- What one `select` of `getUserInput` receives: a line on
`userInputChannel`, an event on `eventChannel`, a value on `panicChannel`. -/
inductive Arrival where
  | input (line : String)
  | event (e : Event)
  | quit (quitMessage : PanicValue)

/-- The scan of `fmt.Sprintf` over a format, for a call without operands;
`inVerb` tells that a `%` has been read and its verb has not. Text is copied;
after `%` the flags `#`, `0`, `+`, `-` and the blank are skipped; the verb `%`
gives `%`; any other verb `c` finds no operand and gives `%!c(MISSING)`; a
format that ends before the verb gives `%!(NOVERB)`. A width, a precision,
`*` and `[n]` are outside this model (`none`). -/
def sprintfScan : Bool → List Char → Option (List Char)
  | false, [] => some []
  | false, c :: rest =>
    if c = '%' then sprintfScan true rest
    else (sprintfScan false rest).map fun out => c :: out
  | true, [] => some "%!(NOVERB)".data
  | true, c :: rest =>
    if c = '#' ∨ c = '0' ∨ c = '+' ∨ c = '-' ∨ c = ' ' then sprintfScan true rest
    else if c.isDigit ∨ c = '.' ∨ c = '*' ∨ c = '[' then none
    else if c = '%' then (sprintfScan false rest).map fun out => '%' :: out
    else (sprintfScan false rest).map fun out => "%!".data ++ c :: "(MISSING)".data ++ out

/-- `fmt.Sprintf(format)` of the Go standard library, called with a format and
no operands, on the formats `sprintfScan` models. -/
def Sprintf (format : String) : Option String :=
  (sprintfScan false format.data).map String.mk

/-- The collaborators of the session that are not part of the sources:
`utils.Argify`, `utils.Colorize`, `User.GetColorMode`, `Character.PrettyName`,
`fmt.Sprintf` applied to a format without further arguments, the text of the
room that `printRoom` prints, and the two handlers, which are taken to return,
with the session as they leave it. -/
structure Collaborators where
  Argify : String → List String
  Colorize : ColorMode → Color → String → String
  GetColorMode : Handle → ColorMode
  PrettyName : Handle → String
  Sprintf : String → String
  roomText : Session → String
  handleCommand : Session → List String → Session
  handleAction : Session → List String → Session

/-! ## session: the main goroutine -/

/-- `Session.processEvent`: the session after the call and the message. The
type assertion `event.(model.RoomUpdateEvent)` is the inner `match`; it cannot
fail, since only a `RoomUpdateEvent` has the type `RoomUpdateEventType`. -/
def Session.processEvent (session : Session) (event : Event) : Session × String :=
  let message := event.ToString session.player
  match event.Type with
  | .RoomUpdateEventType =>
    match event with
    | .RoomUpdateEvent room _ =>
      if room.Id = session.room.Id then
        ({ session with room := room }, message)
      else
        (session, message)
    | .other _ _ => (session, message)
  | .otherEventType _ => (session, message)

/-- `Session.printString`. -/
def Session.printString (session : Session) (data : String) : Eff :=
  .WriteString session.conn data

/-- `Session.printLineColor`, called without further arguments. -/
def Session.printLineColor (env : Collaborators) (session : Session) (color : Color)
    (line : String) : Eff :=
  .WriteLine session.conn (env.Colorize (env.GetColorMode session.user) color (env.Sprintf line))

/-- `Session.printLine`, called without further arguments. -/
def Session.printLine (env : Collaborators) (session : Session) (line : String) : Eff :=
  session.printLineColor env .ColorWhite line

/-- `Session.printRoom`. -/
def Session.printRoom (env : Collaborators) (session : Session) : Eff :=
  session.printLine env (env.roomText session)

/-- `Session.clearLine`. -/
def Session.clearLine (session : Session) : Eff :=
  .ClearLine session.conn

/-- The `for { select { ... } }` of `getUserInput`, run on the arrivals the
selects receive, in order. Arrivals after the first line or panic value are
not received by this call. -/
def selectLoop (env : Collaborators) (prompt : String) : Session → List Arrival → Step String
  | session, [] => ⟨session, [], .waiting⟩
  | session, .input input :: _ => ⟨session, [], .done input⟩
  | session, .event event :: rest =>
    let r := session.processEvent event
    let out :=
      if r.2 ≠ "" then [r.1.clearLine, r.1.printLine env r.2, r.1.printString prompt] else []
    let k := selectLoop env prompt r.1 rest
    ⟨k.session, out ++ k.effects, k.flow⟩
  | session, .quit quitMessage :: _ => ⟨session, [], .panic quitMessage⟩

/-- `Session.getUserInput`. -/
def Session.getUserInput (env : Collaborators) (session : Session) (inputMode : userInputMode)
    (prompt : String) (arrivals : List Arrival) : Step String :=
  let k := selectLoop env prompt session arrivals
  ⟨k.session,
    [.sendInputMode session.inputModeChannel inputMode, .sendPrompt session.promptChannel prompt]
      ++ k.effects,
    k.flow⟩

/-- `prompt()`. -/
def prompt : String := "> "

/-- `strings.HasPrefix`. -/
def HasPrefix (s pre : String) : Bool := pre.data.isPrefixOf s.data

/-- The slice `s[n:]`, for `n` on a character boundary. -/
def sliceFrom (s : String) (n : Nat) : String := ⟨s.data.drop n⟩

/-- The main loop of `Session.Exec`; `calls` holds, for each call of
`getUserInput` made by the loop, the arrivals its selects receive. -/
def mainLoop (env : Collaborators) : Session → List (List Arrival) → Step Unit
  | session, [] =>
    let r := session.getUserInput env RawUserInput prompt []
    ⟨r.session, r.effects, .waiting⟩
  | session, arrivals :: calls =>
    let r := session.getUserInput env RawUserInput prompt arrivals
    match r.flow with
    | .waiting => ⟨r.session, r.effects, .waiting⟩
    | .panic v => ⟨r.session, r.effects, .panic v⟩
    | .done input =>
      if input = "" ∨ input = "logout" then
        ⟨r.session, r.effects, .done ()⟩
      else if HasPrefix input "/" then
        let args := env.Argify (sliceFrom input 1)
        let k := mainLoop env (env.handleCommand r.session args) calls
        ⟨k.session, r.effects ++ [.handleCommand args] ++ k.effects, k.flow⟩
      else
        let args := env.Argify input
        let k := mainLoop env (env.handleAction r.session args) calls
        ⟨k.session, r.effects ++ [.handleAction args] ++ k.effects, k.flow⟩

/-- `Session.Exec`: the deferred `Unregister` runs when `Exec` leaves, by
return or by panic. -/
def Session.Exec (env : Collaborators) (session : Session) (calls : List (List Arrival)) :
    Step Unit :=
  let k := mainLoop env session calls
  let deferred := match k.flow with
    | .waiting => []
    | _ => [Eff.Unregister session.eventChannel]
  ⟨k.session,
    [session.printLineColor env .ColorWhite ("Welcome, " ++ env.PrettyName session.player),
      session.printRoom env, .goInputTask] ++ k.effects ++ deferred,
    k.flow⟩

/-! ## session: the input goroutine, over an explicit clock -/

/-- `time.Millisecond`, in nanoseconds. -/
def Millisecond : Nat := 1000000

/-- The `delay` of the input goroutine. -/
def delay : Nat := 200 * Millisecond

/-- What the environment does during one iteration of the input goroutine.
All times are durations in nanoseconds. -/
structure Round where
  /-- Time the goroutine waits on `inputModeChannel` for the next request. -/
  requestWait : Nat
  mode : userInputMode
  /-- Time the goroutine waits on `promptChannel`. -/
  promptWait : Nat
  /-- Time the blocking read takes. -/
  readTime : Nat
  /-- What the read gives: a line, or a panic (a read failure). -/
  read : Except PanicValue String
  /-- Time the goroutine waits on `userInputChannel` until the main loop receives. -/
  handoverWait : Nat
  deriving Repr

/-- One completed iteration of the input goroutine. -/
structure Served where
  /-- Value of `lastTime` during the iteration. -/
  lastTime : Nat
  /-- When the request was accepted (`mode := <-session.inputModeChannel`). -/
  requestedAt : Nat
  /-- When the read returned. -/
  readAt : Nat
  /-- Duration passed to `time.Sleep`, 0 when it is not called. -/
  slept : Nat
  /-- When the main loop received the line. -/
  handedAt : Nat
  input : String
  deriving DecidableEq, Repr

/-- A run of the input goroutine: the completed iterations and, when the loop
was left by a panic, the time of the last request and the recovered value
sent on `panicChannel`. -/
structure TaskRun where
  served : List Served
  fatal : Option (Nat × PanicValue)
  deriving DecidableEq, Repr

/-- The `for` loop of the input goroutine, started at time `now` with the given
`lastTime`. Statements other than channel operations, the read and the sleep
take no time; a sleep lasts exactly the requested duration. -/
def inputLoop (delay : Nat) : Nat → Nat → List Round → TaskRun
  | _, _, [] => ⟨[], none⟩
  | now, lastTime, r :: rounds =>
    let requestedAt := now + r.requestWait
    if r.mode = CleanUserInput ∨ r.mode = RawUserInput then
      match r.read with
      | .error v => ⟨[], some (requestedAt, v)⟩
      | .ok input =>
        let readAt := requestedAt + r.promptWait + r.readTime
        let diff := readAt - lastTime
        let slept := if diff < delay then delay - diff else 0
        let handedAt := readAt + slept + r.handoverWait
        let k := inputLoop delay handedAt handedAt rounds
        ⟨⟨lastTime, requestedAt, readAt, slept, handedAt, input⟩ :: k.served, k.fatal⟩
    else
      ⟨[], some (requestedAt, "Unhandled case in switch statement (userInputMode)")⟩

/-- The input goroutine of `Session.Exec`, started at time `start`:
`lastTime := time.Now()`, `delay := 200ms`, then the loop. -/
def inputTask (start : Nat) (rounds : List Round) : TaskRun :=
  inputLoop delay start start rounds

/-! ## Vocabulary of the properties -/

/-- Number of invocations of the changed-hook `modified()` in a trace. -/
def modifiedCalls (tr : List Ev) : Nat :=
  (tr.filter fun e => match e with
    | .modified _ => true
    | _ => false).length

/-- A formatter of the kind `utils.FormatName` stands for: the first letter in
upper case, the others in lower case. -/
def capitalise (name : String) : String :=
  match name.data with
  | [] => name
  | c :: cs => ⟨c.toUpper :: cs.map Char.toLower⟩

/-- The fields of a session other than the cached room agree. -/
def sameButRoom (a b : Session) : Prop :=
  a.conn = b.conn ∧ a.user = b.user ∧ a.player = b.player ∧ a.zone = b.zone ∧
    a.userInputChannel = b.userInputChannel ∧ a.promptChannel = b.promptChannel ∧
    a.inputModeChannel = b.inputModeChannel ∧ a.panicChannel = b.panicChannel ∧
    a.eventChannel = b.eventChannel

/-- The writes by which `getUserInput` renders the message of one event. -/
def eventWrites (env : Collaborators) (session : Session) (prompt message : String) : List Eff :=
  if message ≠ "" then
    [session.clearLine, session.printLine env message, session.printString prompt]
  else []

/-- The calls of the command and action handlers among the actions of a session. -/
def handlerCalls (effs : List Eff) : List Eff :=
  effs.filter fun e => match e with
    | .handleCommand _ => true
    | .handleAction _ => true
    | _ => false

/-- The lines that end the main loop: the empty line and "logout". -/
def endsSession (input : String) : Bool := decide (input = "" ∨ input = "logout")

/-- The handler call a line is routed to: the command handler for a line that
starts with "/", with that character removed, and the action handler otherwise. -/
def dispatch (env : Collaborators) (input : String) : Eff :=
  if HasPrefix input "/" then .handleCommand (env.Argify (sliceFrom input 1))
  else .handleAction (env.Argify input)

/-- What the selects of one call of `getUserInput` receive when some events
arrive and then the line. -/
def lineCall (p : List Event × String) : List Arrival :=
  p.1.map Arrival.event ++ [Arrival.input p.2]

/-- The session after it has processed some events. -/
def afterEvents (session : Session) (events : List Event) : Session :=
  events.foldl (fun s e => (s.processEvent e).1) session

/-- A run of the input goroutine in which the user types instantly: the first
request comes at once; the second request comes one second after the first
line was handed over (the main loop was busy); the third request comes at once. -/
def burstRounds : List Round :=
  [ { requestWait := 0, mode := RawUserInput, promptWait := 0, readTime := 0,
      read := .ok "north", handoverWait := 0 },
    { requestWait := 1000 * Millisecond, mode := RawUserInput, promptWait := 0, readTime := 0,
      read := .ok "look", handoverWait := 0 },
    { requestWait := 0, mode := RawUserInput, promptWait := 0, readTime := 0,
      read := .ok "look", handoverWait := 0 } ]

/-- The containment graph of an item is finite and complete: the template of
the item is in the store, every contained identifier names an item in the
store, and the same holds, recursively, of the contained items. This holds of
every item whose containment graph is a finite tree of stored entities. -/
inductive FiniteContainment (s : Store) : Item → Prop
  | intro (a : Item) (t : Template) (kids : List Item)
      (ht : s .TemplateType a.TemplateId = some (.template t))
      (hk : List.Forall₂ (fun id b => s .ItemType id = some (.item b)) a.Inventory kids)
      (hg : ∀ b ∈ kids, FiniteContainment s b) : FiniteContainment s a

/-- Item `b` is directly contained in item `a`: an edge of the containment graph. -/
def Contains (s : Store) (a b : Item) : Prop :=
  ∃ id ∈ a.Inventory, s .ItemType id = some (.item b)

/-- The references of an item resolve: its template and its contained items
are in the store. -/
def Resolves (s : Store) (b : Item) : Prop :=
  (∃ t, s .TemplateType b.TemplateId = some (.template t)) ∧
    ∀ id ∈ b.Inventory, ∃ k, s .ItemType id = some (.item k)

/-- An item that contains itself, and its template. -/
def klein : Item := { Id := 21, Inventory := [21], TemplateId := 4, Locked := false }

/-- The store holding `klein` and its template (weight 1). -/
def kleinStore : Store
  | .TemplateType, 4 =>
    some (.template { Id := 4, Name := "Bottle", Value := 0, Weight := 1, Capacity := 0 })
  | .ItemType, 21 => some (.item klein)
  | _, _ => none

/-- The locks held after a trace, given the locks held before it. -/
def heldAfter : List Id → List Ev → List Id
  | held, [] => held
  | held, .readLock id :: rest => heldAfter (id :: held) rest
  | held, .writeLock id :: rest => heldAfter (id :: held) rest
  | held, .readUnlock id :: rest => heldAfter (held.erase id) rest
  | held, .writeUnlock id :: rest => heldAfter (held.erase id) rest
  | held, .retrieve _ _ :: rest => heldAfter held rest
  | held, .modified _ :: rest => heldAfter held rest

/-- Lock scopes of a trace, started with the locks `held`: whenever the lock
of an entity is acquired, and whenever an entity is resolved through
`Retrieve`, no lock of another entity is held. The `Retrieve` actions marked
by `exempt` are left out of the check. -/
def lockScoped (exempt : Ev → Bool) : List Id → List Ev → Bool
  | _, [] => true
  | held, e :: rest =>
    (match e with
      | .readLock id => held.all (fun h => h == id)
      | .writeLock id => held.all (fun h => h == id)
      | .retrieve id _ => exempt e || held.all (fun h => h == id)
      | _ => true) && lockScoped exempt (heldAfter held [e]) rest

/-- The `Retrieve` of a template. -/
def isTemplateRetrieve : Ev → Bool
  | .retrieve _ .TemplateType => true
  | _ => false

/-- A trace that keeps the lock scopes and leaves no lock held. -/
def Scoped (exempt : Ev → Bool) (tr : List Ev) : Prop :=
  lockScoped exempt [] tr = true ∧ heldAfter [] tr = []

/-- Collaborators for a worked example: lines are not split, no colour is
added, formats are formatted as `Sprintf` does (a format outside that model is
left as it is), and the handlers leave the session as it is. -/
def sampleEnv : Collaborators :=
  { Argify := fun line => [line], Colorize := fun _ _ text => text, GetColorMode := fun _ => 0,
    PrettyName := fun _ => "Ann", Sprintf := fun format => (Sprintf format).getD format,
    roomText := fun session => session.room.Contents,
    handleCommand := fun session _ => session, handleAction := fun session _ => session }

/-- A session for a worked example. -/
def sampleSession : Session :=
  { conn := 1, user := 2, player := 3, room := { Id := 5, Contents := "cell" }, zone := 4,
    userInputChannel := 6, promptChannel := 7, inputModeChannel := 8, panicChannel := 9,
    eventChannel := 10 }

/-! ## Setters -/

/-- C2: a setter called with the current value of its field (what the matching
getter returns) does not invoke the changed-hook and leaves the entity as it
is; the only actions are the read lock and unlock of the getter. Example:
`SetName("Bob")` on a template named "Bob" invokes the hook zero times. -/
theorem setter_current_value_no_hook (FormatName : String → String) (t : Template) (i : Item) :
    (t.GetName.result = .value t.Name ∧ (t.SetName FormatName t.Name).1 = t ∧
      modifiedCalls (t.SetName FormatName t.Name).2 = 0) ∧
    (t.GetValue.result = .value t.Value ∧ (t.SetValue t.Value).1 = t ∧
      modifiedCalls (t.SetValue t.Value).2 = 0) ∧
    (t.GetWeight.result = .value t.Weight ∧ (t.SetWeight t.Weight).1 = t ∧
      modifiedCalls (t.SetWeight t.Weight).2 = 0) ∧
    (t.GetCapacity.result = .value t.Capacity ∧ (t.SetCapacity t.Capacity).1 = t ∧
      modifiedCalls (t.SetCapacity t.Capacity).2 = 0) ∧
    (i.IsLocked.result = .value i.Locked ∧ (i.SetLocked i.Locked).1 = i ∧
      modifiedCalls (i.SetLocked i.Locked).2 = 0) ∧
    modifiedCalls
      (Template.SetName FormatName { Id := 1, Name := "Bob", Value := 0, Weight := 0, Capacity := 0 }
        "Bob").2 = 0 := by
  simp [Template.SetName, Template.SetValue, Template.SetWeight, Template.SetCapacity,
    Item.SetLocked, Template.GetName, Template.GetValue, Template.GetWeight,
    Template.GetCapacity, Item.IsLocked, modifiedCalls]

/-- The setters that store their argument as it is invoke the changed-hook only
when the stored value changes. -/
theorem plain_setters_hook_only_on_change (t : Template) (i : Item) (n : Int) (b : Bool) :
    (modifiedCalls (t.SetValue n).2 ≠ 0 → (t.SetValue n).1.Value ≠ t.Value) ∧
    (modifiedCalls (t.SetWeight n).2 ≠ 0 → (t.SetWeight n).1.Weight ≠ t.Weight) ∧
    (modifiedCalls (t.SetCapacity n).2 ≠ 0 → (t.SetCapacity n).1.Capacity ≠ t.Capacity) ∧
    (modifiedCalls (i.SetLocked b).2 ≠ 0 → (i.SetLocked b).1.Locked ≠ i.Locked) := by
  refine ⟨?_, ?_, ?_, ?_⟩
  · unfold Template.SetValue
    split <;> simp_all [modifiedCalls, Template.GetValue]
  · unfold Template.SetWeight
    split <;> simp_all [modifiedCalls, Template.GetWeight]
  · unfold Template.SetCapacity
    split <;> simp_all [modifiedCalls, Template.GetCapacity]
  · unfold Item.SetLocked
    split <;> simp_all [modifiedCalls, Item.IsLocked]

/-- C3: `SetName` compares the unformatted argument with the stored, formatted
name. On a template created with a name `x` that `FormatName` changes,
`SetName(x)` takes the write lock, stores the same name again and invokes the
changed-hook once, although no field has changed. -/
theorem SetName_hook_without_change (FormatName : String → String) (id : Id) (x : String)
    (h : FormatName x ≠ x) :
    ((NewTemplate FormatName id x).SetName FormatName x).1 = NewTemplate FormatName id x ∧
    ((NewTemplate FormatName id x).SetName FormatName x).2 =
      [.readLock id, .readUnlock id, .writeLock id, .writeUnlock id, .modified id] ∧
    modifiedCalls ((NewTemplate FormatName id x).SetName FormatName x).2 = 1 := by
  have hx : ¬ x = FormatName x := fun e => h e.symm
  simp [Template.SetName, NewTemplate, Template.GetName, modifiedCalls, hx]

/-- C3, at a concrete input: with a capitalising formatter, `SetName("bob")` on
the template created by `NewTemplate("bob")`, whose name is "Bob". -/
theorem SetName_hook_without_change_witness :
    capitalise "bob" ≠ "bob" ∧ (NewTemplate capitalise 7 "bob").Name = "Bob" ∧
    ((NewTemplate capitalise 7 "bob").SetName capitalise "bob").1 = NewTemplate capitalise 7 "bob" ∧
    ((NewTemplate capitalise 7 "bob").SetName capitalise "bob").2 =
      [.readLock 7, .readUnlock 7, .writeLock 7, .writeUnlock 7, .modified 7] ∧
    modifiedCalls ((NewTemplate capitalise 7 "bob").SetName capitalise "bob").2 = 1 :=
  ⟨by decide, by decide, SetName_hook_without_change capitalise 7 "bob" (by decide)⟩

/-! ## Session: events -/

theorem processEvent_roomUpdate (session : Session) (room : Room) (text : Handle → String) :
    session.processEvent (.RoomUpdateEvent room text) =
      if room.Id = session.room.Id then ({ session with room := room }, text session.player)
      else (session, text session.player) := rfl

theorem processEvent_other (session : Session) (tag : Nat) (text : Handle → String) :
    session.processEvent (.other tag text) = (session, text session.player) := rfl

/-- C6: `processEvent` replaces the cached room by the room of a room-update
event for the room with the same identifier; in every other case the cached
room stays; the other fields of the session never change, and the message is
what the event renders for the session's player. -/
theorem processEvent_frame (session : Session) (event : Event) :
    (match event with
      | .RoomUpdateEvent room _ =>
        if room.Id = session.room.Id then (session.processEvent event).1.room = room
        else (session.processEvent event).1.room = session.room
      | .other _ _ => (session.processEvent event).1.room = session.room) ∧
    sameButRoom (session.processEvent event).1 session ∧
    (session.processEvent event).2 = event.ToString session.player := by
  cases event with
  | RoomUpdateEvent room text =>
    rw [processEvent_roomUpdate]
    by_cases h : room.Id = session.room.Id <;>
      simp [sameButRoom, h, Event.ToString]
  | other tag text =>
    rw [processEvent_other]
    simp [sameButRoom, Event.ToString]

theorem processEvent_message (session : Session) (event : Event) :
    (session.processEvent event).2 = event.ToString session.player := by
  cases event with
  | RoomUpdateEvent room text =>
    rw [processEvent_roomUpdate]
    split <;> rfl
  | other tag text => rfl

theorem processEvent_player (session : Session) (event : Event) :
    (session.processEvent event).1.player = session.player := by
  cases event with
  | RoomUpdateEvent room text =>
    rw [processEvent_roomUpdate]
    split <;> rfl
  | other tag text => rfl

theorem afterEvents_player (events : List Event) (session : Session) :
    (afterEvents session events).player = session.player := by
  induction events generalizing session with
  | nil => rfl
  | cons e es ih =>
    show (afterEvents (session.processEvent e).1 es).player = session.player
    rw [ih, processEvent_player]

theorem processEvent_conn (session : Session) (event : Event) :
    (session.processEvent event).1.conn = session.conn := by
  cases event with
  | RoomUpdateEvent room text =>
    rw [processEvent_roomUpdate]
    split <;> rfl
  | other tag text => rfl

theorem processEvent_user (session : Session) (event : Event) :
    (session.processEvent event).1.user = session.user := by
  cases event with
  | RoomUpdateEvent room text =>
    rw [processEvent_roomUpdate]
    split <;> rfl
  | other tag text => rfl

/-- The writes depend on the connection and the user of the session only. -/
theorem eventWrites_congr (env : Collaborators) (a b : Session) (hc : a.conn = b.conn)
    (hu : a.user = b.user) (prompt message : String) :
    eventWrites env a prompt message = eventWrites env b prompt message := by
  simp [eventWrites, Session.clearLine, Session.printLine, Session.printLineColor,
    Session.printString, hc, hu]

/-- The select loop on some events followed by further arrivals. -/
theorem selectLoop_events (env : Collaborators) (prompt : String) (events : List Event)
    (tail : List Arrival) (session : Session) :
    selectLoop env prompt session (events.map Arrival.event ++ tail) =
      ⟨(selectLoop env prompt (afterEvents session events) tail).session,
        events.flatMap (fun e => eventWrites env session prompt (e.ToString session.player)) ++
          (selectLoop env prompt (afterEvents session events) tail).effects,
        (selectLoop env prompt (afterEvents session events) tail).flow⟩ := by
  induction events generalizing session with
  | nil => simp [afterEvents]
  | cons e es ih =>
    have hs : afterEvents session (e :: es) = afterEvents (session.processEvent e).1 es := rfl
    have step :
        selectLoop env prompt session (Arrival.event e :: (es.map Arrival.event ++ tail)) =
        ⟨(selectLoop env prompt (session.processEvent e).1
            (es.map Arrival.event ++ tail)).session,
          eventWrites env (session.processEvent e).1 prompt (session.processEvent e).2 ++
            (selectLoop env prompt (session.processEvent e).1
              (es.map Arrival.event ++ tail)).effects,
          (selectLoop env prompt (session.processEvent e).1
            (es.map Arrival.event ++ tail)).flow⟩ := rfl
    have hfun : (fun e' : Event => eventWrites env (session.processEvent e).1 prompt
          (e'.ToString (session.processEvent e).1.player)) =
        fun e' => eventWrites env session prompt (e'.ToString session.player) := by
      funext e'
      rw [processEvent_player]
      exact eventWrites_congr env _ _ (processEvent_conn session e) (processEvent_user session e)
        _ _
    rw [List.map_cons, List.cons_append, step, ih, hs, hfun, processEvent_message,
      eventWrites_congr env _ _ (processEvent_conn session e) (processEvent_user session e),
      List.flatMap_cons, List.append_assoc]

/-- The calls `getUserInput` makes while it waits for the line: every event
whose message is not empty is rendered by `clearLine()`, `printLine(message)`
and `printString(prompt)`, in this order and in the order of arrival; an event
with an empty message writes nothing; and the call returns the line handed
over by the input goroutine, unchanged. The line that `printLine` writes is
the message after `fmt.Sprintf`, which takes it as a format, and `Colorize`. -/
theorem getUserInput_renders_events (env : Collaborators) (session : Session)
    (inputMode : userInputMode) (prompt : String) (events : List Event) (line : String)
    (later : List Arrival) :
    (session.getUserInput env inputMode prompt
        (events.map Arrival.event ++ Arrival.input line :: later)).flow = .done line ∧
    (session.getUserInput env inputMode prompt
        (events.map Arrival.event ++ Arrival.input line :: later)).effects =
      [.sendInputMode session.inputModeChannel inputMode,
        .sendPrompt session.promptChannel prompt] ++
      events.flatMap (fun e =>
        if e.ToString session.player ≠ "" then
          [.ClearLine session.conn,
            .WriteLine session.conn (env.Colorize (env.GetColorMode session.user) .ColorWhite
              (env.Sprintf (e.ToString session.player))),
            .WriteString session.conn prompt]
        else []) ∧
    (session.getUserInput env inputMode prompt
        (events.map Arrival.event ++ Arrival.input line :: later)).session =
      afterEvents session events ∧
    (∀ earlier e, ((afterEvents session earlier).processEvent e).2 =
      e.ToString session.player) := by
  refine ⟨?_, ?_, ?_, fun earlier e => ?_⟩
  · simp [Session.getUserInput, selectLoop_events, selectLoop]
  · simp [Session.getUserInput, selectLoop_events, selectLoop, eventWrites, Session.clearLine,
      Session.printLine, Session.printLineColor, Session.printString]
  · simp [Session.getUserInput, selectLoop_events, selectLoop]
  · rw [processEvent_message, afterEvents_player]

/-- A format without `%` is returned by `Sprintf` as it is. -/
theorem sprintfScan_no_percent (cs : List Char) (h : '%' ∉ cs) :
    sprintfScan false cs = some cs := by
  induction cs with
  | nil => rfl
  | cons c rest ih =>
    have hc : c ≠ '%' := fun e => h (by simp [e])
    have hr : '%' ∉ rest := fun e => h (List.mem_cons_of_mem _ e)
    simp [sprintfScan, hc, ih hr]

/-- A message without `%` is what `Sprintf` returns for it. -/
theorem Sprintf_no_percent (format : String) (h : '%' ∉ format.data) :
    Sprintf format = some format := by
  simp [Sprintf, sprintfScan_no_percent format.data h]

/-- C8: `getUserInput` renders an event with a non-empty message by three
writes, in order: clear the line, a line, the prompt; and it returns the line
handed over, unchanged. The line written is not the message: `printLine`
hands the message to `fmt.Sprintf` as the format, so what is written is the
message as `Sprintf` formats it, coloured. -/
theorem getUserInput_formats_message (env : Collaborators) (session : Session)
    (inputMode : userInputMode) (prompt : String) (event : Event) (line : String)
    (later : List Arrival) (formatted : String)
    (hmsg : event.ToString session.player ≠ "")
    (hgo : Sprintf (event.ToString session.player) = some formatted)
    (henv : ∀ format out, Sprintf format = some out → env.Sprintf format = out) :
    (session.getUserInput env inputMode prompt
        (Arrival.event event :: Arrival.input line :: later)).effects =
      [.sendInputMode session.inputModeChannel inputMode,
        .sendPrompt session.promptChannel prompt,
        .ClearLine session.conn,
        .WriteLine session.conn
          (env.Colorize (env.GetColorMode session.user) .ColorWhite formatted),
        .WriteString session.conn prompt] ∧
    (session.getUserInput env inputMode prompt
        (Arrival.event event :: Arrival.input line :: later)).flow = .done line := by
  have h := getUserInput_renders_events env session inputMode prompt [event] line later
  simp only [List.map_cons, List.map_nil, List.cons_append, List.nil_append] at h
  refine ⟨?_, h.1⟩
  rw [h.2.1]
  simp [hmsg, henv _ _ hgo]

/-- C8, on a run: an event whose message is "100% sure" arrives before the
line "look". The line written for it is "100%!s(MISSING)ure". -/
theorem getUserInput_formats_message_witness :
    (Event.other 0 fun _ => "100% sure").ToString sampleSession.player ≠ "" ∧
    Sprintf "100% sure" = some "100%!s(MISSING)ure" ∧
    (∀ format out, Sprintf format = some out → sampleEnv.Sprintf format = out) ∧
    ((sampleSession.getUserInput sampleEnv RawUserInput prompt
        [Arrival.event (Event.other 0 fun _ => "100% sure"), Arrival.input "look"]).effects =
      [.sendInputMode 8 RawUserInput, .sendPrompt 7 "> ", .ClearLine 1,
        .WriteLine 1 "100%!s(MISSING)ure", .WriteString 1 "> "] ∧
    (sampleSession.getUserInput sampleEnv RawUserInput prompt
        [Arrival.event (Event.other 0 fun _ => "100% sure"), Arrival.input "look"]).flow =
      .done "look") ∧
    (sampleSession.getUserInput sampleEnv RawUserInput prompt
        [Arrival.event (Event.other 0 fun _ => "100% sure"), Arrival.input "look"]).effects ≠
      [.sendInputMode 8 RawUserInput, .sendPrompt 7 "> ", .ClearLine 1,
        .WriteLine 1 "100% sure", .WriteString 1 "> "] :=
  ⟨by decide, by decide, fun format out h => by simp [sampleEnv, h],
    getUserInput_formats_message sampleEnv sampleSession RawUserInput prompt
      (Event.other 0 fun _ => "100% sure") "look" [] "100%!s(MISSING)ure" (by decide) (by decide)
      (fun format out h => by simp [sampleEnv, h]),
    by decide⟩

/-! ## Session: the main loop -/

theorem handlerCalls_append (a b : List Eff) :
    handlerCalls (a ++ b) = handlerCalls a ++ handlerCalls b := by
  simp [handlerCalls]

theorem handlerCalls_eventWrites (env : Collaborators) (session : Session) (prompt : String)
    (events : List Event) (player : Handle) :
    handlerCalls (events.flatMap fun e => eventWrites env session prompt (e.ToString player)) =
      [] := by
  induction events with
  | nil => rfl
  | cons e es ih =>
    rw [List.flatMap_cons, handlerCalls_append, ih]
    unfold eventWrites
    split <;> simp [handlerCalls, Session.clearLine, Session.printLine, Session.printLineColor,
      Session.printString]

/-- A call of `getUserInput` calls no handler and does not unregister. -/
theorem selectLoop_quiet (env : Collaborators) (prompt : String) (arrivals : List Arrival)
    (session : Session) :
    handlerCalls (selectLoop env prompt session arrivals).effects = [] ∧
    ∀ ch, Eff.Unregister ch ∉ (selectLoop env prompt session arrivals).effects := by
  induction arrivals generalizing session with
  | nil => simp [selectLoop, handlerCalls]
  | cons a rest ih =>
    cases a with
    | input line => simp [selectLoop, handlerCalls]
    | quit v => simp [selectLoop, handlerCalls]
    | event e =>
      obtain ⟨h1, h2⟩ := ih (session.processEvent e).1
      constructor
      · simp only [selectLoop]
        rw [handlerCalls_append, h1]
        split <;> simp [handlerCalls, Session.clearLine, Session.printLine,
          Session.printLineColor, Session.printString]
      · intro ch
        simp only [selectLoop]
        rw [List.mem_append]
        rintro (h | h)
        · split at h <;> simp [Session.clearLine, Session.printLine, Session.printLineColor,
            Session.printString] at h
        · exact h2 ch h

theorem getUserInput_quiet (env : Collaborators) (session : Session) (mode : userInputMode)
    (prompt : String) (arrivals : List Arrival) :
    handlerCalls (session.getUserInput env mode prompt arrivals).effects = [] ∧
    ∀ ch, Eff.Unregister ch ∉ (session.getUserInput env mode prompt arrivals).effects := by
  obtain ⟨h1, h2⟩ := selectLoop_quiet env prompt arrivals session
  constructor
  · simp only [Session.getUserInput]
    rw [handlerCalls_append, h1]
    simp [handlerCalls]
  · intro ch
    simp only [Session.getUserInput]
    rw [List.mem_append]
    rintro (h | h)
    · simp at h
    · exact h2 ch h

theorem getUserInput_lineCall_flow (env : Collaborators) (session : Session)
    (mode : userInputMode) (prompt : String) (p : List Event × String) :
    (session.getUserInput env mode prompt (lineCall p)).flow = .done p.2 := by
  simp [Session.getUserInput, lineCall, selectLoop_events, selectLoop]

theorem getUserInput_quit_flow (env : Collaborators) (session : Session) (mode : userInputMode)
    (prompt : String) (events : List Event) (v : PanicValue) (later : List Arrival) :
    (session.getUserInput env mode prompt
      (events.map Arrival.event ++ Arrival.quit v :: later)).flow = .panic v := by
  simp [Session.getUserInput, selectLoop_events, selectLoop]

/-- The main loop itself never unregisters: that is left to the deferred call. -/
theorem mainLoop_no_Unregister (env : Collaborators) (calls : List (List Arrival))
    (session : Session) (ch : Handle) :
    Eff.Unregister ch ∉ (mainLoop env session calls).effects := by
  induction calls generalizing session with
  | nil => exact (getUserInput_quiet env session RawUserInput prompt []).2 ch
  | cons c rest ih =>
    have hq := (getUserInput_quiet env session RawUserInput prompt c).2 ch
    simp only [mainLoop]
    split
    · exact hq
    · exact hq
    · split
      · exact hq
      · split
        · simp only [List.mem_append, List.mem_singleton, not_or]
          exact ⟨⟨hq, by simp⟩, ih _⟩
        · simp only [List.mem_append, List.mem_singleton, not_or]
          exact ⟨⟨hq, by simp⟩, ih _⟩

/-- One turn of the main loop on a line that does not end the session. -/
theorem mainLoop_step (env : Collaborators) (session : Session) (p : List Event × String)
    (calls : List (List Arrival)) (h : endsSession p.2 = false) :
    ∃ next : Session,
      handlerCalls (mainLoop env session (lineCall p :: calls)).effects =
        dispatch env p.2 :: handlerCalls (mainLoop env next calls).effects ∧
      (mainLoop env session (lineCall p :: calls)).flow = (mainLoop env next calls).flow := by
  have hf := getUserInput_lineCall_flow env session RawUserInput prompt p
  have hq := (getUserInput_quiet env session RawUserInput prompt (lineCall p)).1
  have hne : ¬ (p.2 = "" ∨ p.2 = "logout") := by simpa [endsSession] using h
  by_cases hp : HasPrefix p.2 "/" = true
  · refine ⟨env.handleCommand (session.getUserInput env RawUserInput prompt (lineCall p)).session
      (env.Argify (sliceFrom p.2 1)), ?_, ?_⟩
    · simp only [mainLoop, hf, hne, hp, if_true, if_false]
      rw [handlerCalls_append, handlerCalls_append, hq]
      simp [handlerCalls, dispatch, hp]
    · simp only [mainLoop, hf, hne, hp, if_true, if_false]
  · refine ⟨env.handleAction (session.getUserInput env RawUserInput prompt (lineCall p)).session
      (env.Argify p.2), ?_, ?_⟩
    · simp only [mainLoop, hf, hne, hp, if_false, Bool.false_eq_true]
      rw [handlerCalls_append, handlerCalls_append, hq]
      simp [handlerCalls, dispatch, hp]
    · simp only [mainLoop, hf, hne, hp, if_false, Bool.false_eq_true]

/-- One turn of the main loop on a line that ends the session. -/
theorem mainLoop_last (env : Collaborators) (session : Session) (p : List Event × String)
    (calls : List (List Arrival)) (h : endsSession p.2 = true) :
    handlerCalls (mainLoop env session (lineCall p :: calls)).effects = [] ∧
    (mainLoop env session (lineCall p :: calls)).flow = .done () := by
  have hf := getUserInput_lineCall_flow env session RawUserInput prompt p
  have hq := (getUserInput_quiet env session RawUserInput prompt (lineCall p)).1
  have he : p.2 = "" ∨ p.2 = "logout" := by simpa [endsSession] using h
  simp only [mainLoop, hf, he, if_true]
  exact ⟨hq, trivial⟩

/-- The main loop on a sequence of lines, each one preceded by some events. -/
theorem mainLoop_lines (env : Collaborators) (L : List (List Event × String))
    (session : Session) :
    handlerCalls (mainLoop env session (L.map lineCall)).effects =
      ((L.map Prod.snd).takeWhile fun l => !endsSession l).map (dispatch env) ∧
    (mainLoop env session (L.map lineCall)).flow =
      if (L.map Prod.snd).any endsSession then .done () else .waiting := by
  induction L generalizing session with
  | nil =>
    exact ⟨(getUserInput_quiet env session RawUserInput prompt []).1, rfl⟩
  | cons p L ih =>
    cases h : endsSession p.2 with
    | true =>
      obtain ⟨h1, h2⟩ := mainLoop_last env session p (L.map lineCall) h
      simp [List.takeWhile, h, h1, h2]
    | false =>
      obtain ⟨next, h1, h2⟩ := mainLoop_step env session p (L.map lineCall) h
      obtain ⟨i1, i2⟩ := ih next
      constructor
      · rw [List.map_cons, h1, i1]
        simp [List.takeWhile, h]
      · rw [List.map_cons, h2, i2, List.map_cons, List.any_cons, h, Bool.false_or]

/-- The main loop on lines that do not end the session, followed by a call of
`getUserInput` that receives a value on the panic channel. -/
theorem mainLoop_fatal (env : Collaborators) (L : List (List Event × String))
    (hL : ∀ p ∈ L, endsSession p.2 = false) (events : List Event) (v : PanicValue)
    (later : List Arrival) (after : List (List Arrival)) (session : Session) :
    handlerCalls (mainLoop env session
      (L.map lineCall ++ (events.map Arrival.event ++ Arrival.quit v :: later) :: after)).effects =
      L.map (fun p => dispatch env p.2) ∧
    (mainLoop env session
      (L.map lineCall ++ (events.map Arrival.event ++ Arrival.quit v :: later) :: after)).flow =
      .panic v := by
  induction L generalizing session with
  | nil =>
    have hf := getUserInput_quit_flow env session RawUserInput prompt events v later
    have hq :=
      (getUserInput_quiet env session RawUserInput prompt
        (events.map Arrival.event ++ Arrival.quit v :: later)).1
    simp only [List.map_nil, List.nil_append, mainLoop, hf]
    exact ⟨hq, trivial⟩
  | cons p L ih =>
    have hp : endsSession p.2 = false := hL p (List.mem_cons_self _ _)
    obtain ⟨next, h1, h2⟩ := mainLoop_step env session p
      (L.map lineCall ++ (events.map Arrival.event ++ Arrival.quit v :: later) :: after) hp
    obtain ⟨i1, i2⟩ := ih (fun q hq => hL q (List.mem_cons_of_mem _ hq)) next
    simp only [List.map_cons, List.cons_append]
    rw [h1, h2, i1, i2]
    exact ⟨rfl, rfl⟩

/-- What `Exec` adds around the main loop: the greeting before it and the
deferred `Unregister` when the loop is left. -/
theorem Exec_effects (env : Collaborators) (session : Session) (calls : List (List Arrival)) :
    handlerCalls (session.Exec env calls).effects =
      handlerCalls (mainLoop env session calls).effects ∧
    (session.Exec env calls).flow = (mainLoop env session calls).flow ∧
    (session.Exec env calls).effects.count (Eff.Unregister session.eventChannel) =
      (if (mainLoop env session calls).flow = .waiting then 0 else 1) ∧
    (session.Exec env calls).effects.getLast? =
      (if (mainLoop env session calls).flow = .waiting
        then (session.Exec env calls).effects.getLast?
        else some (Eff.Unregister session.eventChannel)) := by
  have hno := mainLoop_no_Unregister env calls session session.eventChannel
  have hc : (mainLoop env session calls).effects.count (Eff.Unregister session.eventChannel) = 0 :=
    List.count_eq_zero.mpr hno
  refine ⟨?_, rfl, ?_, ?_⟩
  · simp only [Session.Exec]
    rw [handlerCalls_append, handlerCalls_append]
    cases (mainLoop env session calls).flow <;>
      simp [handlerCalls, Session.printLineColor, Session.printRoom, Session.printLine]
  · simp only [Session.Exec, List.count_append, hc]
    cases (mainLoop env session calls).flow <;>
      simp [Session.printLineColor, Session.printRoom, Session.printLine]
  · have hlast : ∀ l : List Eff, (l ++ [Eff.Unregister session.eventChannel]).getLast? =
        some (Eff.Unregister session.eventChannel) := fun l => by
      simp [List.getLast?_append]
    simp only [Session.Exec]
    cases (mainLoop env session calls).flow
    · exact hlast _
    · exact hlast _
    · simp

/-- C5: the main loop of `Exec` ends at the first line that is empty or
"logout", without a handler call for it, `Exec` returns and the deferred
`Unregister` of the session's event queue runs, last and once; every line
before it causes exactly one handler call, in order: the command handler, on
the tokens of the line without its first character, when the line starts with
"/", and the action handler, on the tokens of the whole line, otherwise. When
no line ends the session the loop keeps waiting and nothing is unregistered. -/
theorem Exec_dispatches_lines (env : Collaborators) (session : Session)
    (L : List (List Event × String)) :
    handlerCalls (session.Exec env (L.map lineCall)).effects =
      ((L.map Prod.snd).takeWhile fun l => !endsSession l).map (fun l =>
        if HasPrefix l "/" then Eff.handleCommand (env.Argify (sliceFrom l 1))
        else Eff.handleAction (env.Argify l)) ∧
    (session.Exec env (L.map lineCall)).flow =
      (if (L.map Prod.snd).any endsSession then .done () else .waiting) ∧
    (session.Exec env (L.map lineCall)).effects.count (Eff.Unregister session.eventChannel) =
      (if (L.map Prod.snd).any endsSession then 1 else 0) ∧
    (if (L.map Prod.snd).any endsSession
      then (session.Exec env (L.map lineCall)).effects.getLast? =
        some (Eff.Unregister session.eventChannel)
      else True) ∧
    (∀ l, endsSession l = true ↔ (l = "" ∨ l = "logout")) := by
  obtain ⟨e1, e2, e3, e4⟩ := Exec_effects env session (L.map lineCall)
  obtain ⟨m1, m2⟩ := mainLoop_lines env L session
  refine ⟨?_, ?_, ?_, ?_, fun l => by simp [endsSession]⟩
  · rw [e1, m1]; rfl
  · rw [e2, m2]
  · rw [e3, m2]
    split <;> simp
  · split
    · rename_i h
      rw [e4, m2, if_pos h]
      simp
    · trivial

/-- C7: when a call of `getUserInput` receives a value on the panic channel,
after any events, it returns no line and panics with that same value; the main
loop of `Exec` ends there, the handlers having been called for the earlier
lines only, and the deferred `Unregister` of the session's event queue runs,
last and once, as on normal termination. -/
theorem Exec_fatal_signal (env : Collaborators) (session : Session)
    (L : List (List Event × String)) (hL : ∀ p ∈ L, endsSession p.2 = false)
    (inputMode : userInputMode) (text : String)
    (events : List Event) (v : PanicValue) (later : List Arrival) (after : List (List Arrival)) :
    (session.getUserInput env inputMode text
      (events.map Arrival.event ++ Arrival.quit v :: later)).flow = .panic v ∧
    (session.Exec env
      (L.map lineCall ++ (events.map Arrival.event ++ Arrival.quit v :: later) :: after)).flow =
      .panic v ∧
    handlerCalls (session.Exec env
      (L.map lineCall ++ (events.map Arrival.event ++ Arrival.quit v :: later) :: after)).effects =
      L.map (fun p => dispatch env p.2) ∧
    (session.Exec env
      (L.map lineCall ++ (events.map Arrival.event ++ Arrival.quit v :: later) :: after)).effects.getLast?
      = some (Eff.Unregister session.eventChannel) ∧
    (session.Exec env
      (L.map lineCall ++ (events.map Arrival.event ++ Arrival.quit v :: later) :: after)).effects.count
      (Eff.Unregister session.eventChannel) = 1 := by
  obtain ⟨e1, e2, e3, e4⟩ := Exec_effects env session
    (L.map lineCall ++ (events.map Arrival.event ++ Arrival.quit v :: later) :: after)
  obtain ⟨m1, m2⟩ := mainLoop_fatal env L hL events v later after session
  refine ⟨getUserInput_quit_flow env session inputMode text events v later, ?_, ?_, ?_, ?_⟩
  · rw [e2, m2]
  · rw [e1, m1]
  · rw [e4, m2]; simp
  · rw [e3, m2]; simp

/-- C7, on a run: the line "look" is handled, then the input goroutine signals
"EOF" on the panic channel; `Exec` panics with "EOF" after the one action, and
the last thing it does is to unregister its event queue. -/
theorem Exec_fatal_signal_witness :
    (∀ p ∈ [(([] : List Event), "look")], endsSession p.2 = false) ∧
    (sampleSession.getUserInput sampleEnv RawUserInput prompt [Arrival.quit "EOF"]).flow = .panic "EOF" ∧
    (sampleSession.Exec sampleEnv [[Arrival.input "look"], [Arrival.quit "EOF"]]).flow =
      .panic "EOF" ∧
    handlerCalls
      (sampleSession.Exec sampleEnv [[Arrival.input "look"], [Arrival.quit "EOF"]]).effects =
      [Eff.handleAction ["look"]] ∧
    (sampleSession.Exec sampleEnv
      [[Arrival.input "look"], [Arrival.quit "EOF"]]).effects.getLast? =
      some (Eff.Unregister 10) ∧
    (sampleSession.Exec sampleEnv
      [[Arrival.input "look"], [Arrival.quit "EOF"]]).effects.count (Eff.Unregister 10) = 1 :=
  ⟨by decide,
    Exec_fatal_signal sampleEnv sampleSession [([], "look")] (by decide) RawUserInput prompt
      [] "EOF" [] []⟩

/-! ## Session: the throttle of the input goroutine -/

/-- The loop of the input goroutine, started at `now` with `lastTime ≤ now`:
what holds of each completed iteration and of two consecutive ones. -/
theorem inputLoop_throttle (d : Nat) (rounds : List Round) (now lastTime : Nat)
    (h : lastTime ≤ now) :
    (∀ y ∈ (inputLoop d now lastTime rounds).served.head?,
      y.lastTime = lastTime ∧ now ≤ y.requestedAt) ∧
    List.Chain' (fun a b => b.lastTime = a.handedAt ∧ a.handedAt ≤ b.requestedAt ∧
        a.handedAt + d ≤ b.handedAt ∧ a.lastTime + d ≤ b.requestedAt)
      (inputLoop d now lastTime rounds).served ∧
    ∀ x ∈ (inputLoop d now lastTime rounds).served,
      x.lastTime ≤ x.requestedAt ∧ x.requestedAt ≤ x.readAt ∧
      (x.slept : Int) = max 0 ((d : Int) - ((x.readAt : Int) - (x.lastTime : Int))) ∧
      x.readAt + x.slept ≤ x.handedAt ∧ x.lastTime + d ≤ x.handedAt := by
  induction rounds generalizing now lastTime with
  | nil => simp [inputLoop]
  | cons r rounds ih =>
    unfold inputLoop
    split
    · split
      · simp
      · rename_i input _
        simp only
        generalize hread : now + r.requestWait + r.promptWait + r.readTime = readAt
        generalize hslept :
          (if readAt - lastTime < d then d - (readAt - lastTime) else 0) = slept
        generalize hhand : readAt + slept + r.handoverWait = handedAt
        obtain ⟨ih1, ih2, ih3⟩ := ih handedAt handedAt (le_refl _)
        have hs : (slept : Int) = max 0 ((d : Int) - ((readAt : Int) - (lastTime : Int))) := by
          rw [max_def]
          split at hslept <;> split <;> omega
        have hs2 : lastTime + d ≤ readAt + slept := by
          split at hslept <;> omega
        refine ⟨?_, ?_, ?_⟩
        · intro y hy
          simp only [List.head?_cons, Option.mem_def, Option.some.injEq] at hy
          subst hy
          exact ⟨rfl, by simp⟩
        · rw [List.chain'_cons']
          refine ⟨?_, ih2⟩
          intro y hy
          obtain ⟨hy1, hy2⟩ := ih1 y hy
          have hmem : y ∈ (inputLoop d handedAt handedAt rounds).served :=
            List.mem_of_mem_head? hy
          obtain ⟨_, _, _, _, hy3⟩ := ih3 y hmem
          simp only
          refine ⟨hy1, hy2, ?_, ?_⟩ <;> omega
        · intro x hx
          rcases List.mem_cons.mp hx with hx | hx
          · subst hx
            simp only
            refine ⟨?_, ?_, hs, ?_, ?_⟩ <;> omega
          · exact ih3 x hx
    · simp

/-- C4, as the code has it: the input goroutine separates the moments at which
lines are handed to the main loop. With the delay of 200ms, a sleep that
lasts exactly the requested duration, and any non-negative durations for the
waits and the read: two consecutive lines are handed over at least 200ms
apart, and a line is handed over at least 200ms after `lastTime` (the start of
the goroutine, or the previous hand-over); hence an input request is accepted
at least 200ms after the value `lastTime` had at the request before it. The
duration slept before a line is handed over is
`max(0, delay - time elapsed since lastTime)`. -/
theorem inputTask_throttles_handovers (start : Nat) (rounds : List Round) :
    delay = 200 * 1000000 ∧
    List.Chain' (fun a b => b.lastTime = a.handedAt ∧ a.handedAt ≤ b.requestedAt ∧
        a.handedAt + delay ≤ b.handedAt ∧ a.lastTime + delay ≤ b.requestedAt)
      (inputTask start rounds).served ∧
    (∀ y ∈ (inputTask start rounds).served.head?, y.lastTime = start) ∧
    ∀ x ∈ (inputTask start rounds).served,
      x.lastTime ≤ x.requestedAt ∧ x.requestedAt ≤ x.readAt ∧
      (x.slept : Int) = max 0 ((delay : Int) - ((x.readAt : Int) - (x.lastTime : Int))) ∧
      x.readAt + x.slept ≤ x.handedAt ∧ x.lastTime + delay ≤ x.handedAt := by
  obtain ⟨h1, h2, h3⟩ := inputLoop_throttle delay rounds start start (le_refl _)
  exact ⟨rfl, h2, fun y hy => (h1 y hy).1, h3⟩

/-- C4, as stated, fails: after a request that comes one second after the last
hand-over, answered at once by the user, the line is handed over without a
sleep, and the next request is accepted at the same moment. The requests of
`burstRounds` are accepted at 0ms, 1200ms and 1200ms. -/
theorem requests_not_separated :
    (inputTask 0 burstRounds).served.map (fun x => x.requestedAt) =
      [0, 1200 * Millisecond, 1200 * Millisecond] ∧
    (inputTask 0 burstRounds).served.map (fun x => x.handedAt) =
      [200 * Millisecond, 1200 * Millisecond, 1200 * Millisecond + 200 * Millisecond] ∧
    (inputTask 0 burstRounds).fatal = none ∧
    ¬ List.Chain' (fun a b => a.requestedAt + delay ≤ b.requestedAt)
      (inputTask 0 burstRounds).served := by
  have hrun : (inputTask 0 burstRounds).served =
      [⟨0, 0, 0, 200000000, 200000000, "north"⟩,
        ⟨200000000, 1200000000, 1200000000, 0, 1200000000, "look"⟩,
        ⟨1200000000, 1200000000, 1200000000, 200000000, 1400000000, "look"⟩] := by
    decide
  refine ⟨?_, ?_, by decide, ?_⟩
  · rw [hrun]; decide
  · rw [hrun]; decide
  · rw [hrun]
    simp [List.chain'_cons, delay, Millisecond]

/-! ## Items: weight -/

theorem Run.andThen_result {α β : Type} (m : Run α) (f : α → Run β) (a : α)
    (h : m.result = .value a) : (m.andThen f).result = (f a).result := by
  unfold Run.andThen
  rw [h]

theorem Run.andThen_value_inv {α β : Type} (m : Run α) (f : α → Run β) (b : β)
    (h : (m.andThen f).result = .value b) :
    ∃ a, m.result = .value a ∧ (f a).result = .value b := by
  unfold Run.andThen at h
  split at h
  · rename_i a ha
    exact ⟨a, ha, h⟩
  · cases h
  · cases h

theorem Run.andThen_panicked_inv {α β : Type} (m : Run α) (f : α → Run β)
    (h : (m.andThen f).result = .panicked) :
    m.result = .panicked ∨ ∃ a, m.result = .value a ∧ (f a).result = .panicked := by
  unfold Run.andThen at h
  split at h
  · rename_i a ha
    exact Or.inr ⟨a, ha, h⟩
  · rename_i ha
    exact Or.inl ha
  · cases h

/-- Resolving a contained identifier returns the item the store holds for it. -/
theorem retrieveItem_result (s : Store) (id : Id) (b : Item)
    (h : s .ItemType id = some (.item b)) :
    ((Retrieve s id .ItemType).andThen assertItem).result = .value b := by
  simp [Run.andThen, Retrieve, h, assertItem, Run.ret]

theorem retrieveItem_value_inv (s : Store) (id : Id) (b : Item)
    (h : ((Retrieve s id .ItemType).andThen assertItem).result = .value b) :
    s .ItemType id = some (.item b) := by
  unfold Retrieve at h
  cases hs : s .ItemType id with
  | none => simp [hs, Run.andThen] at h
  | some o =>
    cases o with
    | template t => simp [hs, Run.andThen, assertTemplate, assertItem] at h
    | item i =>
      simp [hs, Run.andThen, assertItem, Run.ret] at h
      rw [h]

/-- With its template in the store, `GetWeight` ends as its loop does. -/
theorem GetWeight_succ_result (s : Store) (fuel : Nat) (a : Item) (t : Template)
    (ht : s .TemplateType a.TemplateId = some (.template t)) :
    (Item.GetWeight s (fuel + 1) a).result =
      (weightLoop s (Item.GetWeight s fuel) a.Inventory t.Weight).result := by
  simp [Item.GetWeight, Run.andThen, Item.GetTemplate, Retrieve, ht, assertTemplate, Run.ret,
    Template.GetWeight, Item.GetItems]

/-- Without its template in the store, `GetWeight` panics. -/
theorem GetWeight_succ_value_inv (s : Store) (fuel : Nat) (a : Item) (v : Int)
    (h : (Item.GetWeight s (fuel + 1) a).result = .value v) :
    ∃ t, s .TemplateType a.TemplateId = some (.template t) ∧
      (weightLoop s (Item.GetWeight s fuel) a.Inventory t.Weight).result = .value v := by
  cases hs : s .TemplateType a.TemplateId with
  | none =>
    simp [Item.GetWeight, Run.andThen, Item.GetTemplate, Retrieve, hs] at h
  | some o =>
    cases o with
    | item i =>
      simp [Item.GetWeight, Run.andThen, Item.GetTemplate, Retrieve, hs, assertTemplate] at h
    | template t =>
      exact ⟨t, rfl, by rw [← GetWeight_succ_result s fuel a t hs]; exact h⟩

/-- The loop adds up the weights of the contained items with Go's `+`. -/
theorem weightLoop_value (s : Store) (rec : Item → Run Int) (ids : List Id) (kids : List Item)
    (hk : List.Forall₂ (fun id b => s .ItemType id = some (.item b)) ids kids) :
    ∀ (ws : List Int) (weight : Int),
      List.Forall₂ (fun b w => (rec b).result = .value w) kids ws →
      (weightLoop s rec ids weight).result = .value (ws.foldl addInt weight) := by
  induction hk with
  | nil =>
    intro ws weight hw
    cases hw
    rfl
  | cons hid _ ih =>
    intro ws weight hw
    cases hw with
    | cons hb hrest =>
      unfold weightLoop
      rw [Run.andThen_result _ _ _ (retrieveItem_result s _ _ hid),
        Run.andThen_result _ _ _ hb]
      exact ih _ _ hrest

/-- When the loop returns, the recursive call returned for every contained item. -/
theorem weightLoop_value_inv (s : Store) (rec : Item → Run Int) (ids : List Id) :
    ∀ (weight v : Int), (weightLoop s rec ids weight).result = .value v →
      ∀ id ∈ ids, ∀ b, s .ItemType id = some (.item b) → ∃ w, (rec b).result = .value w := by
  induction ids with
  | nil => intro _ _ _ id hid; cases hid
  | cons i rest ih =>
    intro weight v h id hid b hb
    unfold weightLoop at h
    obtain ⟨item, h1, h2⟩ := Run.andThen_value_inv _ _ _ h
    obtain ⟨w, h3, h4⟩ := Run.andThen_value_inv _ _ _ h2
    rcases List.mem_cons.mp hid with rfl | hmem
    · have := retrieveItem_value_inv s _ _ h1
      rw [hb] at this
      cases this
      exact ⟨w, h3⟩
    · exact ih _ _ h4 id hmem b hb

/-- A value in the range of `int` is not changed by the wrap-around. -/
theorem wrapInt_of_inRange (x : Int) (h : InIntRange x) : wrapInt x = x := by
  unfold InIntRange at h
  unfold wrapInt
  simp only [intBits] at *
  norm_num at *
  omega

theorem wrapInt_add_left (a b : Int) : wrapInt (wrapInt a + b) = wrapInt (a + b) := by
  unfold wrapInt
  simp only [intBits]
  norm_num
  omega

/-- Repeated addition on `int` gives the exact sum, wrapped once. -/
theorem foldl_addInt (ws : List Int) : ∀ x : Int, ws ≠ [] →
    ws.foldl addInt x = wrapInt (x + ws.sum) := by
  induction ws with
  | nil => intro x h; exact absurd rfl h
  | cons w rest ih =>
    intro x _
    by_cases hr : rest = []
    · subst hr
      simp [addInt]
    · rw [List.foldl_cons, ih _ hr, addInt, wrapInt_add_left, List.sum_cons, add_assoc]

theorem foldl_addInt_exact (ws : List Int) (x : Int) (h : InIntRange (x + ws.sum)) :
    ws.foldl addInt x = x + ws.sum := by
  by_cases hr : ws = []
  · subst hr
    simp
  · rw [foldl_addInt ws x hr, wrapInt_of_inRange _ h]

/-- Items that return from some fuel on do so from a common fuel on. -/
theorem kids_common_bound (s : Store) (kids : List Item)
    (h : ∀ b ∈ kids, ∃ (N : Nat) (v : Int), ∀ fuel, N ≤ fuel →
      (Item.GetWeight s fuel b).result = .value v) :
    ∃ (N : Nat) (ws : List Int), List.Forall₂
      (fun b w => ∀ fuel, N ≤ fuel → (Item.GetWeight s fuel b).result = .value w) kids ws := by
  induction kids with
  | nil => exact ⟨0, [], List.Forall₂.nil⟩
  | cons b rest ih =>
    obtain ⟨N1, v, hv⟩ := h b (List.mem_cons_self _ _)
    obtain ⟨N2, ws, hws⟩ := ih (fun c hc => h c (List.mem_cons_of_mem _ hc))
    refine ⟨max N1 N2, v :: ws, List.Forall₂.cons ?_ ?_⟩
    · intro fuel hf
      exact hv fuel (le_trans (le_max_left _ _) hf)
    · exact hws.imp fun _ _ hbw fuel hf => hbw fuel (le_trans (le_max_right _ _) hf)

/-- C1: for an item whose containment graph is finite and complete, `GetWeight`
returns (from some fuel on, always the same value): the weight of the item's
template plus the weights `GetWeight` returns for the directly contained
items, added in order with Go's `+` on `int`; this is the exact sum whenever
the exact sum is in the range of `int`; and for an item that contains nothing
it is exactly the weight of the template. -/
theorem GetWeight_finite_tree (s : Store) (a : Item) (h : FiniteContainment s a) :
    ∃ (N : Nat) (t : Template) (kids : List Item) (ws : List Int),
      s .TemplateType a.TemplateId = some (.template t) ∧
      List.Forall₂ (fun id b => s .ItemType id = some (.item b)) a.Inventory kids ∧
      List.Forall₂
        (fun b w => ∀ fuel, N ≤ fuel → (Item.GetWeight s fuel b).result = .value w) kids ws ∧
      (∀ fuel, N ≤ fuel →
        (Item.GetWeight s fuel a).result = .value (ws.foldl addInt t.Weight)) ∧
      (InIntRange (t.Weight + ws.sum) → ws.foldl addInt t.Weight = t.Weight + ws.sum) ∧
      (a.Inventory = [] → ∀ fuel, N ≤ fuel →
        (Item.GetWeight s fuel a).result = .value t.Weight) := by
  induction h with
  | intro a t kids ht hk _ ih =>
    obtain ⟨N, ws, hws⟩ := kids_common_bound s kids (fun b hb => by
      obtain ⟨Nb, tb, kb, wb, _, _, _, hval, _⟩ := ih b hb
      exact ⟨Nb, _, hval⟩)
    have main : ∀ fuel, N + 1 ≤ fuel →
        (Item.GetWeight s fuel a).result = .value (ws.foldl addInt t.Weight) := by
      intro fuel hf
      obtain ⟨f, rfl⟩ : ∃ f, fuel = f + 1 := ⟨fuel - 1, by omega⟩
      rw [GetWeight_succ_result s f a t ht]
      exact weightLoop_value s _ _ _ hk ws t.Weight
        (hws.imp fun _ _ hbw => hbw f (by omega))
    refine ⟨N + 1, t, kids, ws, ht, hk, ?_, main, foldl_addInt_exact ws t.Weight, ?_⟩
    · exact hws.imp fun _ _ hbw fuel hf => hbw fuel (by omega)
    · intro hempty fuel hf
      rw [hempty] at hk
      cases hk
      cases hws
      exact main fuel hf

/-- The backpack of the scenario has a finite and complete containment graph. -/
theorem scenario_finite : FiniteContainment scenarioStore backpack := by
  have hsword : FiniteContainment scenarioStore sword :=
    .intro sword swordTemplate [] rfl List.Forall₂.nil (fun _ hb => by cases hb)
  have hbag : FiniteContainment scenarioStore bag :=
    .intro bag bagTemplate [sword] rfl (List.Forall₂.cons rfl List.Forall₂.nil)
      (fun b hb => by
        rw [List.mem_singleton] at hb
        rw [hb]
        exact hsword)
  exact .intro backpack backpackTemplate [bag] rfl (List.Forall₂.cons rfl List.Forall₂.nil)
    (fun b hb => by
      rw [List.mem_singleton] at hb
      rw [hb]
      exact hbag)

/-- C1, on the scenario of the specification: Sword (5) in Bag (2) in Backpack
(3) gives `Backpack.GetWeight() = 10`. -/
theorem GetWeight_finite_tree_witness :
    FiniteContainment scenarioStore backpack ∧
    (Item.GetWeight scenarioStore 3 backpack).result = .value 10 ∧
    (Item.GetWeight scenarioStore 1 sword).result = .value 5 ∧
    ∃ (N : Nat) (t : Template) (kids : List Item) (ws : List Int),
      scenarioStore .TemplateType backpack.TemplateId = some (.template t) ∧
      List.Forall₂ (fun id b => scenarioStore .ItemType id = some (.item b))
        backpack.Inventory kids ∧
      List.Forall₂
        (fun b w => ∀ fuel, N ≤ fuel →
          (Item.GetWeight scenarioStore fuel b).result = .value w) kids ws ∧
      (∀ fuel, N ≤ fuel →
        (Item.GetWeight scenarioStore fuel backpack).result =
          .value (ws.foldl addInt t.Weight)) ∧
      (InIntRange (t.Weight + ws.sum) → ws.foldl addInt t.Weight = t.Weight + ws.sum) ∧
      (backpack.Inventory = [] → ∀ fuel, N ≤ fuel →
        (Item.GetWeight scenarioStore fuel backpack).result = .value t.Weight) :=
  ⟨scenario_finite, by decide, by decide,
    GetWeight_finite_tree scenarioStore backpack scenario_finite⟩

/-! ## Items: cycles -/

/-- When `GetWeight` returns, it has returned, with less fuel, for every
directly contained item. -/
theorem value_child (s : Store) (a b : Item) (hab : Contains s a b) (fuel : Nat) (v : Int)
    (h : (Item.GetWeight s fuel a).result = .value v) :
    ∃ f, f < fuel ∧ ∃ w, (Item.GetWeight s f b).result = .value w := by
  cases fuel with
  | zero => simp [Item.GetWeight] at h
  | succ f =>
    obtain ⟨t, _, hloop⟩ := GetWeight_succ_value_inv s f a v h
    obtain ⟨id, hid, hb⟩ := hab
    obtain ⟨w, hw⟩ := weightLoop_value_inv s _ _ _ _ hloop id hid b hb
    exact ⟨f, Nat.lt_succ_self f, w, hw⟩

theorem value_transGen (s : Store) (a b : Item) (hab : Relation.TransGen (Contains s) a b) :
    ∀ (fuel : Nat) (v : Int), (Item.GetWeight s fuel a).result = .value v →
      ∃ f, f < fuel ∧ ∃ w, (Item.GetWeight s f b).result = .value w := by
  induction hab with
  | single h => exact fun fuel v hv => value_child s a _ h fuel v hv
  | tail _ hbc ih =>
    intro fuel v hv
    obtain ⟨f, hf, w, hw⟩ := ih fuel v hv
    obtain ⟨g, hg, u, hu⟩ := value_child s _ _ hbc f w hw
    exact ⟨g, lt_trans hg hf, u, hu⟩

theorem value_reflTransGen (s : Store) (a b : Item)
    (hab : Relation.ReflTransGen (Contains s) a b) (fuel : Nat) (v : Int)
    (hv : (Item.GetWeight s fuel a).result = .value v) :
    ∃ f w, (Item.GetWeight s f b).result = .value w := by
  rcases Relation.reflTransGen_iff_eq_or_transGen.mp hab with h | h
  · subst h
    exact ⟨fuel, v, hv⟩
  · obtain ⟨f, _, w, hw⟩ := value_transGen s a b h fuel v hv
    exact ⟨f, w, hw⟩

/-- On an item that lies on a cycle no fuel is enough. -/
theorem no_value_on_cycle (s : Store) (c : Item) (hc : Relation.TransGen (Contains s) c c) :
    ∀ (fuel : Nat) (v : Int), (Item.GetWeight s fuel c).result ≠ .value v := by
  intro fuel
  induction fuel using Nat.strong_induction_on with
  | _ fuel ih =>
    intro v hv
    obtain ⟨f, hf, w, hw⟩ := value_transGen s c c hc fuel v hv
    exact ih f hf w hw

/-- The loop does not panic when every contained identifier names an item for
which the recursive call does not panic. -/
theorem weightLoop_no_panic (s : Store) (rec : Item → Run Int) (ids : List Id)
    (h : ∀ id ∈ ids, ∃ b, s .ItemType id = some (.item b) ∧ (rec b).result ≠ .panicked) :
    ∀ weight : Int, (weightLoop s rec ids weight).result ≠ .panicked := by
  induction ids with
  | nil => intro weight hp; cases hp
  | cons i rest ih =>
    intro weight hp
    obtain ⟨b, hb, hrec⟩ := h i (List.mem_cons_self _ _)
    unfold weightLoop at hp
    rw [Run.andThen_result _ _ _ (retrieveItem_result s i b hb)] at hp
    rcases Run.andThen_panicked_inv _ _ hp with h1 | ⟨w, _, h2⟩
    · exact hrec h1
    · exact ih (fun id hid => h id (List.mem_cons_of_mem _ hid)) _ h2

/-- `GetWeight` does not panic when all references reachable from the item resolve. -/
theorem GetWeight_no_panic (s : Store) (fuel : Nat) :
    ∀ a : Item, (∀ b, Relation.ReflTransGen (Contains s) a b → Resolves s b) →
      (Item.GetWeight s fuel a).result ≠ .panicked := by
  induction fuel with
  | zero => intro a _ hp; simp [Item.GetWeight] at hp
  | succ f ih =>
    intro a hclosed
    obtain ⟨⟨t, ht⟩, hkids⟩ := hclosed a Relation.ReflTransGen.refl
    rw [GetWeight_succ_result s f a t ht]
    apply weightLoop_no_panic
    intro id hid
    obtain ⟨k, hk⟩ := hkids id hid
    refine ⟨k, hk, ih k ?_⟩
    intro b hb
    exact hclosed b (Relation.ReflTransGen.head ⟨id, hid, hk⟩ hb)

/-- C10: `GetWeight` has no cycle guard. When a cycle of the containment graph
can be reached from an item, `GetWeight` on that item returns a value with no
amount of fuel; and when the references of all reachable items resolve, so
that nothing stops the call by a panic, it is still recursing when the fuel is
used up, whatever the fuel. -/
theorem GetWeight_cycle_never_returns (s : Store) (a c : Item)
    (hreach : Relation.ReflTransGen (Contains s) a c)
    (hcycle : Relation.TransGen (Contains s) c c) :
    (∀ (fuel : Nat) (v : Int), (Item.GetWeight s fuel a).result ≠ .value v) ∧
    ((∀ b, Relation.ReflTransGen (Contains s) a b → Resolves s b) →
      ∀ fuel : Nat, (Item.GetWeight s fuel a).result = .outOfFuel) := by
  have hno : ∀ (fuel : Nat) (v : Int), (Item.GetWeight s fuel a).result ≠ .value v := by
    intro fuel v hv
    obtain ⟨f, w, hw⟩ := value_reflTransGen s a c hreach fuel v hv
    exact no_value_on_cycle s c hcycle f w hw
  refine ⟨hno, fun hclosed fuel => ?_⟩
  have hp := GetWeight_no_panic s fuel a hclosed
  cases hr : (Item.GetWeight s fuel a).result with
  | value v => exact absurd hr (hno fuel v)
  | panicked => exact absurd hr hp
  | outOfFuel => rfl

/-- The item `klein` contains itself. -/
theorem klein_contains_itself : Contains kleinStore klein klein :=
  ⟨21, by simp [klein], rfl⟩

/-- The references of everything reachable from `klein` resolve. -/
theorem klein_resolves (b : Item) (h : Relation.ReflTransGen (Contains kleinStore) klein b) :
    Resolves kleinStore b := by
  have hres : Resolves kleinStore klein :=
    ⟨⟨_, rfl⟩, fun id hid => ⟨klein, by
      have : id = 21 := by simpa [klein] using hid
      subst this
      rfl⟩⟩
  have hb : b = klein := by
    induction h with
    | refl => rfl
    | tail _ hstep ih =>
      subst ih
      obtain ⟨id, hid, hb⟩ := hstep
      have : id = 21 := by simpa [klein] using hid
      subst this
      have h2 : kleinStore .ItemType 21 = some (.item klein) := rfl
      rw [h2] at hb
      cases hb
      rfl
  rw [hb]
  exact hres

/-- C10, on an item whose list of contained items holds its own identifier. -/
theorem GetWeight_cycle_never_returns_witness :
    Contains kleinStore klein klein ∧
    (Item.GetWeight kleinStore 5 klein).result = .outOfFuel ∧
    (∀ (fuel : Nat) (v : Int), (Item.GetWeight kleinStore fuel klein).result ≠ .value v) ∧
    ∀ fuel : Nat, (Item.GetWeight kleinStore fuel klein).result = .outOfFuel :=
  ⟨klein_contains_itself, by decide,
    (GetWeight_cycle_never_returns kleinStore klein klein Relation.ReflTransGen.refl
      (Relation.TransGen.single klein_contains_itself)).1,
    (GetWeight_cycle_never_returns kleinStore klein klein Relation.ReflTransGen.refl
      (Relation.TransGen.single klein_contains_itself)).2 klein_resolves⟩

/-! ## Items: lock scopes -/

theorem heldAfter_append (t1 t2 : List Ev) :
    ∀ held : List Id, heldAfter held (t1 ++ t2) = heldAfter (heldAfter held t1) t2 := by
  induction t1 with
  | nil => intro held; rfl
  | cons e rest ih =>
    intro held
    cases e <;> exact ih _

theorem lockScoped_append (exempt : Ev → Bool) (t1 t2 : List Ev) :
    ∀ held : List Id, lockScoped exempt held (t1 ++ t2) =
      (lockScoped exempt held t1 && lockScoped exempt (heldAfter held t1) t2) := by
  induction t1 with
  | nil => intro held; simp [lockScoped, heldAfter]
  | cons e rest ih =>
    intro held
    have hh : heldAfter held (e :: rest) = heldAfter (heldAfter held [e]) rest :=
      heldAfter_append [e] rest held
    show (_ && lockScoped exempt (heldAfter held [e]) (rest ++ t2)) =
      ((_ && lockScoped exempt (heldAfter held [e]) rest) &&
        lockScoped exempt (heldAfter held (e :: rest)) t2)
    rw [ih, hh, Bool.and_assoc]

theorem scoped_append {exempt : Ev → Bool} {t1 t2 : List Ev} (h1 : Scoped exempt t1)
    (h2 : Scoped exempt t2) : Scoped exempt (t1 ++ t2) := by
  constructor
  · rw [lockScoped_append, h1.1, h1.2, h2.1]
    rfl
  · rw [heldAfter_append, h1.2, h2.2]

theorem scoped_andThen {exempt : Ev → Bool} {α β : Type} (m : Run α) (f : α → Run β)
    (hm : Scoped exempt m.trace) (hf : ∀ a, Scoped exempt (f a).trace) :
    Scoped exempt (m.andThen f).trace := by
  unfold Run.andThen
  split
  · exact scoped_append hm (hf _)
  · exact hm
  · exact hm

theorem scoped_lockPair (exempt : Ev → Bool) (id : Id) :
    Scoped exempt [.readLock id, .readUnlock id] := by
  simp [Scoped, lockScoped, heldAfter]

theorem scoped_retrieveItem (exempt : Ev → Bool) (s : Store) (id : Id) :
    Scoped exempt ((Retrieve s id .ItemType).andThen assertItem).trace := by
  apply scoped_andThen
  · unfold Retrieve
    split <;> simp [Scoped, lockScoped, heldAfter]
  · intro o
    cases o <;> simp [Scoped, assertItem, Run.ret, lockScoped, heldAfter]

theorem GetTemplate_trace (s : Store) (self : Item) :
    (Item.GetTemplate s self).trace =
      [.readLock self.Id, .retrieve self.TemplateId .TemplateType, .readUnlock self.Id] := by
  unfold Item.GetTemplate Retrieve
  cases hs : s .TemplateType self.TemplateId with
  | none => simp [Run.andThen]
  | some o => cases o <;> simp [Run.andThen, assertTemplate, Run.ret]

theorem scoped_getTemplate (s : Store) (self : Item) :
    Scoped isTemplateRetrieve (Item.GetTemplate s self).trace := by
  rw [GetTemplate_trace]
  simp [Scoped, lockScoped, heldAfter, isTemplateRetrieve]

theorem scoped_weightLoop (s : Store) (rec : Item → Run Int)
    (hrec : ∀ b, Scoped isTemplateRetrieve (rec b).trace) (ids : List Id) :
    ∀ weight : Int, Scoped isTemplateRetrieve (weightLoop s rec ids weight).trace := by
  induction ids with
  | nil => intro weight; simp [Scoped, weightLoop, Run.ret, lockScoped, heldAfter]
  | cons i rest ih =>
    intro weight
    unfold weightLoop
    apply scoped_andThen _ _ (scoped_retrieveItem _ s i)
    intro item
    exact scoped_andThen _ _ (hrec item) (fun w => ih _)

theorem scoped_getWeight (s : Store) (fuel : Nat) :
    ∀ a : Item, Scoped isTemplateRetrieve (Item.GetWeight s fuel a).trace := by
  induction fuel with
  | zero => intro a; simp [Scoped, Item.GetWeight, lockScoped, heldAfter]
  | succ f ih =>
    intro a
    unfold Item.GetWeight
    apply scoped_andThen
    · apply scoped_andThen _ _ (scoped_getTemplate s a)
      intro t
      exact scoped_lockPair _ t.Id
    · intro weight
      apply scoped_andThen _ _ (scoped_lockPair _ a.Id)
      intro ids
      exact scoped_weightLoop s _ ih ids weight

theorem Run.andThen_trace_prefix {α β : Type} (m : Run α) (f : α → Run β) :
    ∃ rest, (m.andThen f).trace = m.trace ++ rest := by
  unfold Run.andThen
  split
  · exact ⟨_, rfl⟩
  · exact ⟨[], by simp⟩
  · exact ⟨[], by simp⟩

/-- C9, as the code has it: in the actions of `Item.GetWeight`, for every item,
store and fuel, no lock is held when the lock of another entity is acquired,
and no lock is held when a contained item is resolved through `Retrieve`, so
the recursion runs outside all locks, and no lock is left held at the end. The
template of the item, however, is resolved inside `GetTemplate` between the
`ReadLock` and the deferred `ReadUnlock` of the item: every call starts with
lock the item, `Retrieve` the template, unlock the item. -/
theorem GetWeight_lock_scopes (s : Store) (fuel : Nat) (a : Item) :
    lockScoped isTemplateRetrieve [] (Item.GetWeight s fuel a).trace = true ∧
    heldAfter [] (Item.GetWeight s fuel a).trace = [] ∧
    ∃ rest, (Item.GetWeight s (fuel + 1) a).trace =
      [.readLock a.Id, .retrieve a.TemplateId .TemplateType, .readUnlock a.Id] ++ rest := by
  refine ⟨(scoped_getWeight s fuel a).1, (scoped_getWeight s fuel a).2, ?_⟩
  unfold Item.GetWeight
  obtain ⟨r1, h1⟩ := Run.andThen_trace_prefix
    ((Item.GetTemplate s a).andThen Template.GetWeight)
    (fun weight => (Item.GetItems a).andThen fun ids =>
      weightLoop s (Item.GetWeight s fuel) ids weight)
  obtain ⟨r2, h2⟩ := Run.andThen_trace_prefix (Item.GetTemplate s a) Template.GetWeight
  rw [h1, h2, GetTemplate_trace]
  exact ⟨r2 ++ r1, by simp⟩

/-- C9, as stated, fails: `GetTemplate` resolves the template of the item
through `Retrieve` while the read lock of the item is held. -/
theorem GetWeight_retrieves_under_lock :
    (Item.GetWeight scenarioStore 1 sword).trace =
      [.readLock 11, .retrieve 1 .TemplateType, .readUnlock 11,
        .readLock 1, .readUnlock 1, .readLock 11, .readUnlock 11] ∧
    heldAfter [] [.readLock 11] = [11] ∧
    lockScoped (fun _ => false) [] (Item.GetWeight scenarioStore 1 sword).trace = false := by
  decide

end Kmud
